import Mathlib

/-!
Verification of the Sudoku engine in `AI_Project/AI_suduko.py`.

The 9x9 board is embedded as a function `Fin 9 → Fin 9 → Nat` (0 = empty
cell).  The in-place mutation of the Python code is modelled by threading
the grid state through each operation: a method that mutates `self.board`
and returns a `bool` becomes a function returning `Bool × Grid`.

The two recursive backtracking procedures of the source
(`SudokuBoard._solve_with_backtracking` and
`SudokuPuzzleGenerator._fill_board_randomly`, whose bodies are identical
except for the order in which the digits 1..9 are attempted — ascending
vs `random.shuffle(numbers)` — and which use the two identical validity
checks `SudokuBoard._is_valid_placement` and
`SudokuPuzzleGenerator._is_valid`) are embedded once as `solveSeq`,
parametrised by a digit-order source `oracle : Grid → List Nat`.  The
deterministic solver instantiates the oracle with the constant ascending
list `digits`; the generator's randomised fill is modelled by an arbitrary
oracle (each outcome of `random.shuffle` is a permutation of `[1..9]`, and
within one run no two recursive calls ever see the same grid, so every
execution trace is realised by some oracle).  The Python recursion has no
fuel; its nesting depth is bounded by one more than the number of empty
cells (at most 81), so running the fuelled embedding with fuel 82 is exact.

Randomness in `SudokuPuzzleGenerator.generate_puzzle`'s cell-removal loop
(`random.randint` coordinates) is modelled by a stream of picked
coordinates; the loop runs until the removal budget is met, so exhausting
a finite stream models non-termination and `generate_puzzle` "returning"
corresponds to the embedded function producing `some` board.
-/

namespace Sudoku

set_option maxRecDepth 8000

abbrev Grid := Fin 9 → Fin 9 → Nat

/-- Model of the single-cell assignment `board[row][col] = v`. -/
def setCell (g : Grid) (r c : Fin 9) (v : Nat) : Grid :=
  fun i j => if i = r ∧ j = c then v else g i j

/-- Model of `[[0] * 9 for _ in range(9)]`. -/
def emptyGrid : Grid := fun _ _ => 0

/-- Row-major list of all 81 cell coordinates. -/
def allCells : List (Fin 9 × Fin 9) :=
  (List.finRange 9).flatMap fun r => (List.finRange 9).map fun c => (r, c)

/-- Model of `_find_empty_cell` (both copies): first cell equal to 0 in
row-major order, `None` if there is none. -/
def findEmpty (g : Grid) : Option (Fin 9 × Fin 9) :=
  allCells.find? fun p => g p.1 p.2 == 0

/-- Top-left corner coordinate of the 3x3 box: `(row // 3) * 3`. -/
def boxStart (a : Fin 9) : Nat := a.val / 3 * 3

/-- The nine cells of the 3x3 box containing `(r, c)`, in the order the
source's two nested `for` loops visit them. -/
def boxCells (r c : Fin 9) : List (Fin 9 × Fin 9) :=
  (List.finRange 3).flatMap fun i =>
    (List.finRange 3).map fun j =>
      (⟨boxStart r + i.val, by have hr := r.isLt; have hi := i.isLt; simp only [boxStart]; omega⟩,
       ⟨boxStart c + j.val, by have hc := c.isLt; have hj := j.isLt; simp only [boxStart]; omega⟩)

/-- Model of `SudokuBoard._is_valid_placement` (and of the identical
`SudokuPuzzleGenerator._is_valid`): `num` must not already occur in the
row, the column, or the 3x3 box. -/
def isValidPlacement (g : Grid) (r c : Fin 9) (num : Nat) : Bool :=
  if (List.finRange 9).any (fun j => g r j == num) then false
  else if (List.finRange 9).any (fun i => g i c == num) then false
  else if (boxCells r c).any (fun p => g p.1 p.2 == num) then false
  else true

/-- Shared shape of the three `discard` loops of `get_possibilities`:
walk a list of positions, and for every position whose cell is non-zero
remove that cell's value from the running set. -/
def eraseScan {α : Type} (s : Finset Nat) (l : List α) (f : α → Nat) : Finset Nat :=
  l.foldl (fun t a => if f a ≠ 0 then t.erase (f a) else t) s

/-- Model of `SudokuBoard.get_possibilities`: for a non-empty cell the
empty set; otherwise `{1..9}` with the values seen in the row, the column
and the 3x3 box discarded. -/
def getPossibilities (g : Grid) (r c : Fin 9) : Finset Nat :=
  if g r c ≠ 0 then ∅
  else
    eraseScan
      (eraseScan (eraseScan (Finset.Icc 1 9) (List.finRange 9) (fun j => g r j))
        (List.finRange 9) (fun i => g i c))
      (boxCells r c) (fun p => g p.1 p.2)

/-- Model of `SudokuBoard.get_all_possibilities`: the insertion-ordered
association list backing the returned dict, visiting cells in row-major
order and recording each empty cell whose possibility set is non-empty. -/
def getAllPossibilities (g : Grid) : List ((Fin 9 × Fin 9) × Finset Nat) :=
  (List.finRange 9).flatMap fun r =>
    (List.finRange 9).flatMap fun c =>
      if g r c = 0 then
        if getPossibilities g r c = ∅ then [] else [((r, c), getPossibilities g r c)]
      else []

/-- Model of `SudokuBoard.place_number`: clearing always succeeds; a
non-zero value is placed only if `_is_valid_placement` accepts it,
otherwise the board is unchanged and `False` is returned. -/
def placeNumber (g : Grid) (r c : Fin 9) (num : Nat) : Bool × Grid :=
  if num = 0 then (true, setCell g r c 0)
  else if isValidPlacement g r c num then (true, setCell g r c num)
  else (false, g)

/-- Model of `SudokuBoard.is_complete`: no cell holds 0. -/
def isComplete (g : Grid) : Bool :=
  !((List.finRange 9).any fun i => (List.finRange 9).any fun j => g i j == 0)

/-- Values occurring in row `r` (the Python `set(row)`). -/
def rowVals (g : Grid) (r : Fin 9) : Finset Nat :=
  Finset.image (fun j => g r j) Finset.univ

/-- Values occurring in column `c`. -/
def colVals (g : Grid) (c : Fin 9) : Finset Nat :=
  Finset.image (fun i => g i c) Finset.univ

/-- Values occurring in the 3x3 box containing `(r, c)`. -/
def boxVals (g : Grid) (r c : Fin 9) : Finset Nat :=
  Finset.image (fun p => g p.1 p.2) (boxCells r c).toFinset

/-- Model of `SudokuBoard.is_valid_complete`: the board is complete, every
row is a 9-element set not containing 0, and every column and every 3x3
box is a 9-element set. -/
def isValidComplete (g : Grid) : Bool :=
  isComplete g &&
  ((List.finRange 9).all fun r =>
    (rowVals g r).card == 9 && !(decide ((0 : Nat) ∈ rowVals g r))) &&
  ((List.finRange 9).all fun c => (colVals g c).card == 9) &&
  ((List.finRange 3).all fun bi => (List.finRange 3).all fun bj =>
    (boxVals g ⟨bi.val * 3, by have := bi.isLt; omega⟩
               ⟨bj.val * 3, by have := bj.isLt; omega⟩).card == 9)

/-- The ascending digit list `range(1, 10)` of the solver's `for num` loop. -/
def digits : List Nat := List.range' 1 9

/-- One step of the backtracking loop body shared by
`_solve_with_backtracking` and `_fill_board_randomly`: try the digits in
`nums` at the empty cell `(r, c)` of the threaded grid; a digit that
passes the validity check is written, the continuation `solver` is run,
and on its failure the cell is reset to 0 before the next digit is tried.
When the digits are exhausted the loop reports failure with the board as
the undo steps left it. -/
def tryNums (solver : Grid → Bool × Grid) (r c : Fin 9) :
    Grid → List Nat → Bool × Grid
  | g, [] => (false, g)
  | g, n :: rest =>
    if isValidPlacement g r c n then
      match solver (setCell g r c n) with
      | (true, g2) => (true, g2)
      | (false, g2) => tryNums solver r c (setCell g2 r c 0) rest
    else tryNums solver r c g rest

/-- The shared backtracking skeleton of `_solve_with_backtracking` and
`_fill_board_randomly`, with the digit order per call supplied by
`oracle` and the (never reached for fuel 82, see `solveSeq_complete`)
recursion bound `fuel`. -/
def solveSeq (oracle : Grid → List Nat) : Nat → Grid → Bool × Grid
  | 0, g => (false, g)
  | fuel + 1, g =>
    match findEmpty g with
    | none => (true, g)
    | some (r, c) => tryNums (solveSeq oracle fuel) r c g (oracle g)

/-- Model of `SudokuBoard._solve_with_backtracking` run on a grid: the
digits are tried in ascending order. -/
def solveGrid (g : Grid) : Bool × Grid := solveSeq (fun _ => digits) 82 g

/-- Number of empty cells of a grid. -/
def emptyCount (g : Grid) : Nat :=
  (Finset.univ.filter fun p : Fin 9 × Fin 9 => g p.1 p.2 = 0).card

/-- Model of the `SudokuBoard` aggregate: current cells, the immutable
initial snapshot, and the solution computed at construction. -/
structure Board where
  cells : Grid
  initial : Grid
  solution : Option Grid

/-- Model of `SudokuBoard.__init__` on a 9x9 grid followed by
`_generate_solution`: the grid is copied into `board` and
`initial_board`, and the solver is run on a copy to fill `solution`
(`None` when backtracking fails).  No validation of the supplied grid is
performed. -/
def mkBoard (g : Grid) : Board :=
  { cells := g
    initial := g
    solution :=
      match solveGrid g with
      | (true, s) => some s
      | (false, _) => none }

/-- Model of `SudokuBoard.__init__` with `board=None`. -/
def mkBoardDefault : Board := mkBoard emptyGrid

/-- `place_number` as an operation on the whole `Board` aggregate: only
`self.board` (the `cells` field) is read and written. -/
def placeB (b : Board) (r c : Fin 9) (num : Nat) : Bool × Board :=
  let res := placeNumber b.cells r c num
  (res.1, { b with cells := res.2 })

/-- Model of the `difficulty_map` dict lookup `difficulty_map.get(difficulty, 40)`
in `generate_puzzle`. -/
def difficultyMap (d : String) : Nat :=
  if d = "Easy" then 30
  else if d = "Medium" then 40
  else if d = "Hard" then 50
  else if d = "Expert" then 60
  else 40

/-- Model of the removal loop of `generate_puzzle`: draw coordinates from
the stream `picks`; a pick landing on a non-zero cell clears it and counts
toward the budget, a pick landing on an already empty cell is re-sampled.
`none` models the loop still running when the stream is exhausted. -/
def removeCells : Grid → Nat → List (Fin 9 × Fin 9) → Option Grid
  | g, 0, _ => some g
  | _, _ + 1, [] => none
  | g, k + 1, p :: ps =>
    if g p.1 p.2 ≠ 0 then removeCells (setCell g p.1 p.2 0) k ps
    else removeCells g (k + 1) ps

/-- Model of `SudokuPuzzleGenerator.generate_puzzle`: fill an empty board
with the randomised backtracking (its Boolean result is ignored by the
source), remove `difficulty_map.get(difficulty, 40)` cells, and construct
a `SudokuBoard` from what is left. -/
def generatePuzzle (oracle : Grid → List Nat) (picks : List (Fin 9 × Fin 9))
    (d : String) : Option Board :=
  let filled := (solveSeq oracle 82 emptyGrid).2
  match removeCells filled (difficultyMap d) picks with
  | some g => some (mkBoard g)
  | none => none

/-- The data of an advanced hint, abstracting the three message formats of
`get_advanced_hint` (each format determines and is determined by its
technique tag and the `(row, col, num)` triple). -/
inductive Hint : Type
  | naked (r c : Fin 9) (n : Nat)
  | hiddenRow (r c : Fin 9) (n : Nat)
  | hiddenCol (r c : Fin 9) (n : Nat)
deriving DecidableEq

/-- Executable model of the element extraction `list(poss_set)[0]`: the
possibility sets the source applies it to are subsets of `{1..9}`, and it
is only reached under the guard `len(poss_set) == 1`, where the result is
the unique element whatever enumeration order the Python set uses. -/
def pickSingle (s : Finset Nat) : Nat :=
  (digits.filter fun n => decide (n ∈ s)).headD 0

/-- Model of `AdvancedSudokuAISolver.find_naked_singles`: the cells of the
`get_all_possibilities` dict whose possibility set has exactly one
element, paired with `list(poss_set)[0]`. -/
def findNakedSingles (g : Grid) : List (Fin 9 × Fin 9 × Nat) :=
  (getAllPossibilities g).flatMap fun e =>
    if e.2.card = 1 then [(e.1.1, e.1.2, pickSingle e.2)] else []

/-- The `possible_positions` list of `find_hidden_singles_in_row`: the
empty cells of `row` whose possibility set contains `num`. -/
def hiddenRowPositions (g : Grid) (row : Fin 9) (num : Nat) : List (Fin 9) :=
  (List.finRange 9).filter fun c =>
    g row c == 0 && decide (num ∈ getPossibilities g row c)

/-- Model of `AdvancedSudokuAISolver.find_hidden_singles_in_row`. -/
def findHiddenSinglesInRow (g : Grid) (row : Fin 9) : List (Fin 9 × Fin 9 × Nat) :=
  (List.range' 1 9).flatMap fun num =>
    if (List.finRange 9).any (fun j => g row j == num) then []
    else
      match hiddenRowPositions g row num with
      | [c] => [(row, c, num)]
      | _ => []

/-- The `possible_positions` list of `find_hidden_singles_in_column`. -/
def hiddenColPositions (g : Grid) (col : Fin 9) (num : Nat) : List (Fin 9) :=
  (List.finRange 9).filter fun r =>
    g r col == 0 && decide (num ∈ getPossibilities g r col)

/-- Model of `AdvancedSudokuAISolver.find_hidden_singles_in_column`. -/
def findHiddenSinglesInColumn (g : Grid) (col : Fin 9) : List (Fin 9 × Fin 9 × Nat) :=
  (List.range' 1 9).flatMap fun num =>
    if (List.finRange 9).any (fun i => g i col == num) then []
    else
      match hiddenColPositions g col num with
      | [r] => [(r, col, num)]
      | _ => []

/-- First hit of a unit-indexed scan: the Python `for` loop that returns
on the first unit whose hidden-singles list is non-empty, taking that
list's element 0. -/
def firstHit (f : Fin 9 → List (Fin 9 × Fin 9 × Nat)) : Option (Fin 9 × Fin 9 × Nat) :=
  (List.finRange 9).findSome? fun i => (f i).head?

/-- Model of `AdvancedSudokuAISolver.get_advanced_hint`: naked singles
first, then hidden singles row 0..8, then hidden singles column 0..8,
`none` when no deduction is available. -/
def getAdvancedHint (g : Grid) : Option Hint :=
  match (findNakedSingles g).head? with
  | some (r, c, n) => some (.naked r c n)
  | none =>
    match firstHit (findHiddenSinglesInRow g) with
    | some (r, c, n) => some (.hiddenRow r c n)
    | none =>
      match firstHit (findHiddenSinglesInColumn g) with
      | some (r, c, n) => some (.hiddenCol r c n)
      | none => none

/-! ### Specification-side predicates (from the spec's wording) -/

/-- Two cells lie in a common unit: same row, same column, or same 3x3
box.  Reflexive by convention; `NoDupUnits` adds the distinctness side
condition itself. -/
def SameUnit (p q : Fin 9 × Fin 9) : Prop :=
  p.1 = q.1 ∨ p.2 = q.2 ∨ (p.1.val / 3 = q.1.val / 3 ∧ p.2.val / 3 = q.2.val / 3)

instance (p q : Fin 9 × Fin 9) : Decidable (SameUnit p q) := by
  unfold SameUnit; infer_instance

/-- Each of the 27 units contains no duplicate non-zero value. -/
def NoDupUnits (g : Grid) : Prop :=
  ∀ p q : Fin 9 × Fin 9, p ≠ q → SameUnit p q →
    g p.1 p.2 ≠ 0 → g p.1 p.2 = g q.1 q.2 → False

instance (g : Grid) : Decidable (NoDupUnits g) := by
  unfold NoDupUnits; infer_instance

/-- `h` agrees with `g` on every non-zero cell of `g`. -/
def Extends (h g : Grid) : Prop :=
  ∀ i j : Fin 9, g i j ≠ 0 → h i j = g i j

instance (h g : Grid) : Decidable (Extends h g) := by
  unfold Extends; infer_instance

/-- The spec's notion of a completion of `g` with no repeated digit in any
row, column or 3x3 box: a grid of digits 1..9, duplicate-free in every
unit, agreeing with `g` on the given clues. -/
def IsSolutionOf (h g : Grid) : Prop :=
  (∀ i j : Fin 9, 1 ≤ h i j ∧ h i j ≤ 9) ∧ NoDupUnits h ∧ Extends h g

instance (h g : Grid) : Decidable (IsSolutionOf h g) := by
  unfold IsSolutionOf; infer_instance

/-- `v` occurs somewhere in the row, column or 3x3 box of `(r, c)` —
including at `(r, c)` itself. -/
def ValueInUnits (g : Grid) (r c : Fin 9) (v : Nat) : Prop :=
  ∃ p : Fin 9 × Fin 9, SameUnit p (r, c) ∧ g p.1 p.2 = v

instance (g : Grid) (r c : Fin 9) (v : Nat) : Decidable (ValueInUnits g r c v) := by
  unfold ValueInUnits; infer_instance

/-- Hidden single in a row, per the source's loop: the digit `n` (1..9)
occurs nowhere in row `r`, and `c` is the unique column whose cell is
empty with `n` among its possibilities. -/
def HiddenRowAt (g : Grid) (r c : Fin 9) (n : Nat) : Prop :=
  1 ≤ n ∧ n ≤ 9 ∧ (∀ j, g r j ≠ n) ∧ g r c = 0 ∧ n ∈ getPossibilities g r c ∧
    ∀ c', g r c' = 0 → n ∈ getPossibilities g r c' → c' = c

instance (g : Grid) (r c : Fin 9) (n : Nat) : Decidable (HiddenRowAt g r c n) := by
  unfold HiddenRowAt; infer_instance

/-- Hidden single in a column, per the source's loop. -/
def HiddenColAt (g : Grid) (r c : Fin 9) (n : Nat) : Prop :=
  1 ≤ n ∧ n ≤ 9 ∧ (∀ i, g i c ≠ n) ∧ g r c = 0 ∧ n ∈ getPossibilities g r c ∧
    ∀ r', g r' c = 0 → n ∈ getPossibilities g r' c → r' = r

instance (g : Grid) (r c : Fin 9) (n : Nat) : Decidable (HiddenColAt g r c n) := by
  unfold HiddenColAt; infer_instance

/-- What a successful backtracking run guarantees about its final grid
`gr`, relative to the grid `g` it started from: clues are preserved, no
empty cell remains, unit-duplicate-freeness is preserved, and every cell
either kept its old value or received a digit 1..9. -/
def SolveResult (g gr : Grid) : Prop :=
  Extends gr g ∧ findEmpty gr = none ∧ (NoDupUnits g → NoDupUnits gr) ∧
    ∀ i j : Fin 9, gr i j = g i j ∨ (1 ≤ gr i j ∧ gr i j ≤ 9)

/-- Convenience builder for concrete witness grids, reading a row list
(missing entries read as 0). -/
def ofRows (l : List (List Nat)) : Grid :=
  fun i j => (l.getD i.val []).getD j.val 0

/-- A fixed fully solved grid, used as a completion witness. -/
def wSolution : Grid := ofRows
  [[1, 2, 3, 4, 5, 6, 7, 8, 9],
   [4, 5, 6, 7, 8, 9, 1, 2, 3],
   [7, 8, 9, 1, 2, 3, 4, 5, 6],
   [2, 3, 4, 5, 6, 7, 8, 9, 1],
   [5, 6, 7, 8, 9, 1, 2, 3, 4],
   [8, 9, 1, 2, 3, 4, 5, 6, 7],
   [3, 4, 5, 6, 7, 8, 9, 1, 2],
   [6, 7, 8, 9, 1, 2, 3, 4, 5],
   [9, 1, 2, 3, 4, 5, 6, 7, 8]]

/-- Concrete board with a single 5 at `(0, 0)`. -/
def g5 : Grid := setCell emptyGrid 0 0 5

/-- Concrete 9x9 grid holding the out-of-range value 15 at `(0, 0)`. -/
def g15 : Grid := setCell emptyGrid 0 0 15

/-- The complete (but massively duplicated) all-ones grid. -/
def allOnes : Grid := fun _ _ => 1

/-- A grid on which the backtracking search fails at once: every digit is
blocked at the first empty cell `(0, 0)` (2..9 by row 0, and 1 by the 1 at
`(1, 0)`). -/
def gStuck : Grid := ofRows
  [[0, 2, 3, 4, 5, 6, 7, 8, 9],
   [1, 0, 0, 0, 0, 0, 0, 0, 0]]

/-- A grid with a naked single: cell `(0, 0)` can only be 1. -/
def gNaked : Grid := ofRows [[0, 2, 3, 4, 5, 6, 7, 8, 9]]

/-- Thirty distinct removal picks: the first 30 cells in row-major order. -/
def wPicks : List (Fin 9 × Fin 9) := allCells.take 30

/-! ### Basic lemmas: cells, scans, the validity check -/

theorem setCell_self (g : Grid) (r c : Fin 9) (v : Nat) : setCell g r c v r c = v := by
  simp [setCell]

theorem setCell_ne (g : Grid) (r c : Fin 9) (v : Nat) {i j : Fin 9}
    (h : ¬(i = r ∧ j = c)) : setCell g r c v i j = g i j := by
  simp only [setCell, if_neg h]

theorem ne_pair {q : Fin 9 × Fin 9} {r c : Fin 9} (hq : q ≠ (r, c)) :
    ¬(q.1 = r ∧ q.2 = c) := by
  rintro ⟨h1, h2⟩
  exact hq (Prod.ext_iff.2 ⟨h1, h2⟩)

theorem setCell_cancel (g : Grid) (r c : Fin 9) (v : Nat) (hg : g r c = 0) :
    setCell (setCell g r c v) r c 0 = g := by
  funext i j
  by_cases h : i = r ∧ j = c
  · obtain ⟨rfl, rfl⟩ := h
    simp [setCell, hg]
  · simp only [setCell, if_neg h]

theorem mem_allCells (p : Fin 9 × Fin 9) : p ∈ allCells := by
  revert p; decide

theorem findEmpty_eq_none {g : Grid} :
    findEmpty g = none ↔ ∀ i j : Fin 9, g i j ≠ 0 := by
  unfold findEmpty
  rw [List.find?_eq_none]
  constructor
  · intro h i j
    simpa using h (i, j) (mem_allCells _)
  · intro h p _
    simpa using h p.1 p.2

theorem findEmpty_zero {g : Grid} {p : Fin 9 × Fin 9} (h : findEmpty g = some p) :
    g p.1 p.2 = 0 := by
  simpa using List.find?_some h

theorem mem_boxCells : ∀ (r c : Fin 9) (p : Fin 9 × Fin 9),
    p ∈ boxCells r c ↔ (p.1.val / 3 = r.val / 3 ∧ p.2.val / 3 = c.val / 3) := by
  decide

theorem sameUnit_symm : ∀ p q : Fin 9 × Fin 9, SameUnit p q → SameUnit q p := by
  decide

theorem sameUnit_iff_scanned : ∀ (r c : Fin 9) (p : Fin 9 × Fin 9),
    SameUnit p (r, c) ↔ (p.1 = r ∨ p.2 = c ∨ p ∈ boxCells r c) := by
  decide

theorem ite_false_chain (a b c : Bool) :
    (if a then false else if b then false else if c then false else true) = true ↔
      a = false ∧ b = false ∧ c = false := by
  cases a <;> cases b <;> cases c <;> simp

theorem isValidPlacement_eq_true (g : Grid) (r c : Fin 9) (n : Nat) :
    isValidPlacement g r c n = true ↔
      (∀ j, g r j ≠ n) ∧ (∀ i, g i c ≠ n) ∧ ∀ p ∈ boxCells r c, g p.1 p.2 ≠ n := by
  unfold isValidPlacement
  rw [ite_false_chain]
  simp [List.any_eq_false, List.mem_finRange]

theorem isValidPlacement_iff (g : Grid) (r c : Fin 9) (n : Nat) :
    isValidPlacement g r c n = true ↔
      ∀ p : Fin 9 × Fin 9, SameUnit p (r, c) → g p.1 p.2 ≠ n := by
  rw [isValidPlacement_eq_true]
  constructor
  · rintro ⟨h1, h2, h3⟩ p hsu
    rcases (sameUnit_iff_scanned r c p).1 hsu with hr | hc | hb
    · intro hval
      exact h1 p.2 (by rw [← hr]; exact hval)
    · intro hval
      exact h2 p.1 (by rw [← hc]; exact hval)
    · exact h3 p hb
  · intro h
    exact ⟨fun j => h (r, j) (Or.inl rfl),
           fun i => h (i, c) (Or.inr (Or.inl rfl)),
           fun p hp => h p ((sameUnit_iff_scanned r c p).2 (Or.inr (Or.inr hp)))⟩

theorem noDup_setCell {g : Grid} {r c : Fin 9} {n : Nat}
    (hv : ∀ p : Fin 9 × Fin 9, SameUnit p (r, c) → g p.1 p.2 ≠ n)
    (hnd : NoDupUnits g) : NoDupUnits (setCell g r c n) := by
  intro p q hne hsu hnz heq
  by_cases hp : p = (r, c) <;> by_cases hq : q = (r, c)
  · exact hne (hp.trans hq.symm)
  · subst hp
    rw [setCell_ne g r c n (ne_pair hq)] at heq
    simp only [setCell_self] at hnz heq
    exact hv q (sameUnit_symm _ _ hsu) heq.symm
  · subst hq
    rw [setCell_ne g r c n (ne_pair hp)] at hnz heq
    simp only [setCell_self] at heq
    exact hv p hsu heq
  · rw [setCell_ne g r c n (ne_pair hp)] at hnz heq
    rw [setCell_ne g r c n (ne_pair hq)] at heq
    exact hnd p q hne hsu hnz heq

theorem noDup_clear {g : Grid} (r c : Fin 9) (hnd : NoDupUnits g) :
    NoDupUnits (setCell g r c 0) := by
  intro p q hne hsu hnz heq
  by_cases hp : p = (r, c)
  · subst hp
    simp only [setCell_self] at hnz
    exact hnz rfl
  · rw [setCell_ne g r c 0 (ne_pair hp)] at hnz heq
    by_cases hq : q = (r, c)
    · subst hq
      simp only [setCell_self] at heq
      exact hnz heq
    · rw [setCell_ne g r c 0 (ne_pair hq)] at heq
      exact hnd p q hne hsu hnz heq

theorem mem_eraseScan {α : Type} (l : List α) (f : α → Nat) :
    ∀ (s : Finset Nat) (x : Nat),
      x ∈ eraseScan s l f ↔ x ∈ s ∧ ∀ a ∈ l, ¬(f a ≠ 0 ∧ f a = x) := by
  induction l with
  | nil =>
    intro s x
    simp [eraseScan]
  | cons a l ih =>
    intro s x
    unfold eraseScan at ih ⊢
    rw [List.foldl_cons]
    by_cases h : f a ≠ 0
    · rw [if_pos h, ih]
      simp only [Finset.mem_erase, List.mem_cons, ne_eq]
      constructor
      · rintro ⟨⟨hxa, hxs⟩, hrest⟩
        refine ⟨hxs, fun b hb => ?_⟩
        rcases hb with rfl | hb
        · rintro ⟨-, hfb⟩
          exact hxa hfb.symm
        · exact hrest b hb
      · rintro ⟨hxs, hall⟩
        refine ⟨⟨fun hx => hall a (Or.inl rfl) ⟨h, hx.symm⟩, hxs⟩,
                fun b hb => hall b (Or.inr hb)⟩
    · rw [if_neg h, ih]
      push_neg at h
      simp only [List.mem_cons]
      constructor
      · rintro ⟨hxs, hrest⟩
        refine ⟨hxs, fun b hb => ?_⟩
        rcases hb with rfl | hb
        · rintro ⟨hb0, -⟩
          exact hb0 h
        · exact hrest b hb
      · rintro ⟨hxs, hall⟩
        exact ⟨hxs, fun b hb => hall b (Or.inr hb)⟩

theorem mem_getPossibilities {g : Grid} {r c : Fin 9} {x : Nat} :
    x ∈ getPossibilities g r c ↔
      g r c = 0 ∧ 1 ≤ x ∧ x ≤ 9 ∧ (∀ j, g r j ≠ x) ∧ (∀ i, g i c ≠ x) ∧
        ∀ p ∈ boxCells r c, g p.1 p.2 ≠ x := by
  unfold getPossibilities
  by_cases h : g r c = 0
  · rw [if_neg (by simp [h])]
    rw [mem_eraseScan, mem_eraseScan, mem_eraseScan]
    simp only [Finset.mem_Icc, List.mem_finRange, ne_eq, true_implies]
    constructor
    · rintro ⟨⟨⟨⟨hx1, hx9⟩, hrow⟩, hcol⟩, hbox⟩
      have hx0 : x ≠ 0 := by omega
      refine ⟨h, hx1, hx9, ?_, ?_, ?_⟩
      · intro j hj
        exact hrow j ⟨fun h0 => hx0 (hj ▸ h0), hj⟩
      · intro i hi
        exact hcol i ⟨fun h0 => hx0 (hi ▸ h0), hi⟩
      · intro p hp hv
        exact hbox p hp ⟨fun h0 => hx0 (hv ▸ h0), hv⟩
    · rintro ⟨-, hx1, hx9, hrow, hcol, hbox⟩
      refine ⟨⟨⟨⟨hx1, hx9⟩, ?_⟩, ?_⟩, ?_⟩
      · rintro j ⟨-, hj⟩
        exact hrow j hj
      · rintro i ⟨-, hi⟩
        exact hcol i hi
      · rintro p hp ⟨-, hv⟩
        exact hbox p hp hv
  · rw [if_pos (by simpa using h)]
    simp only [Finset.not_mem_empty, false_iff]
    rintro ⟨h0, -⟩
    exact h h0

theorem getPossibilities_of_filled {g : Grid} {r c : Fin 9} (h : g r c ≠ 0) :
    getPossibilities g r c = ∅ := by
  unfold getPossibilities
  rw [if_pos (by simpa using h)]

/-! ### Lemmas about the backtracking skeleton -/

theorem extends_refl (g : Grid) : Extends g g := fun _ _ _ => rfl

theorem extends_trans {a b c : Grid} (hcb : Extends c b) (hba : Extends b a) :
    Extends c a := by
  intro i j ha
  have hb := hba i j ha
  rw [hcb i j (by rw [hb]; exact ha), hb]

theorem extends_setCell {g : Grid} {r c : Fin 9} (n : Nat) (hg : g r c = 0) :
    Extends (setCell g r c n) g := by
  intro i j hij
  apply setCell_ne
  rintro ⟨rfl, rfl⟩
  exact hij hg

theorem emptyCount_le (g : Grid) : emptyCount g ≤ 81 := by
  have h := Finset.card_filter_le (Finset.univ : Finset (Fin 9 × Fin 9))
    (fun p => g p.1 p.2 = 0)
  simpa using h

theorem emptyCount_setCell_lt {g : Grid} {r c : Fin 9} {n : Nat}
    (hg : g r c = 0) (hn : n ≠ 0) : emptyCount (setCell g r c n) < emptyCount g := by
  unfold emptyCount
  apply Finset.card_lt_card
  rw [Finset.ssubset_iff_of_subset]
  · refine ⟨(r, c), ?_, ?_⟩
    · simp [hg]
    · simp only [Finset.mem_filter, Finset.mem_univ, true_and]
      rw [setCell_self]
      exact hn
  · intro p hp
    simp only [Finset.mem_filter, Finset.mem_univ, true_and] at hp ⊢
    by_cases h : p.1 = r ∧ p.2 = c
    · rw [h.1, h.2, setCell_self] at hp
      exact absurd hp hn
    · rwa [setCell_ne g r c n h] at hp

theorem emptyCount_clear {g : Grid} {p : Fin 9 × Fin 9} (hp : g p.1 p.2 ≠ 0) :
    emptyCount (setCell g p.1 p.2 0) = emptyCount g + 1 := by
  unfold emptyCount
  have hins : (Finset.univ.filter fun q : Fin 9 × Fin 9 => setCell g p.1 p.2 0 q.1 q.2 = 0)
      = insert p (Finset.univ.filter fun q : Fin 9 × Fin 9 => g q.1 q.2 = 0) := by
    ext q
    simp only [Finset.mem_filter, Finset.mem_univ, true_and, Finset.mem_insert]
    by_cases h : q.1 = p.1 ∧ q.2 = p.2
    · have hq : q = p := Prod.ext_iff.2 h
      rw [h.1, h.2, setCell_self]
      simp [hq]
    · rw [setCell_ne g _ _ 0 h]
      constructor
      · intro hq
        exact Or.inr hq
      · rintro (rfl | hq)
        · exact absurd ⟨rfl, rfl⟩ h
        · exact hq
  rw [hins, Finset.card_insert_of_not_mem (by simp [hp])]

theorem emptyCount_eq_zero {g : Grid} (h : emptyCount g = 0) :
    ∀ i j : Fin 9, g i j ≠ 0 := by
  intro i j hij
  have hmem : (i, j) ∈ Finset.univ.filter fun p : Fin 9 × Fin 9 => g p.1 p.2 = 0 := by
    simp [hij]
  rw [Finset.card_eq_zero.1 h] at hmem
  simp at hmem

theorem isValid_nonzero {g : Grid} {r c : Fin 9} {n : Nat}
    (hg : g r c = 0) (hv : isValidPlacement g r c n = true) : n ≠ 0 := by
  rintro rfl
  exact ((isValidPlacement_eq_true g r c 0).1 hv).1 c hg

theorem tryNums_false {solver : Grid → Bool × Grid}
    (hsr : ∀ g g', solver g = (false, g') → g' = g) (r c : Fin 9) :
    ∀ (nums : List Nat) (g g' : Grid), g r c = 0 →
      tryNums solver r c g nums = (false, g') → g' = g := by
  intro nums
  induction nums with
  | nil =>
    intro g g' _ h
    simp only [tryNums, Prod.mk.injEq, true_and] at h
    exact h.symm
  | cons n rest ih =>
    intro g g' hg h
    rw [tryNums] at h
    by_cases hv : isValidPlacement g r c n
    · rw [if_pos hv] at h
      rcases hsol : solver (setCell g r c n) with ⟨b2, g2⟩
      rw [hsol] at h
      cases b2
      · have h' : tryNums solver r c (setCell g2 r c 0) rest = (false, g') := h
        have hg2 : g2 = setCell g r c n := hsr _ _ hsol
        rw [hg2, setCell_cancel g r c n hg] at h'
        exact ih g g' hg h'
      · have h' : ((true, g2) : Bool × Grid) = (false, g') := h
        simp at h'
    · rw [if_neg hv] at h
      exact ih g g' hg h

theorem solveSeq_false (or : Grid → List Nat) :
    ∀ (f : Nat) (g g' : Grid), solveSeq or f g = (false, g') → g' = g := by
  intro f
  induction f with
  | zero =>
    intro g g' h
    simp only [solveSeq, Prod.mk.injEq, true_and] at h
    exact h.symm
  | succ f ih =>
    intro g g' h
    rw [solveSeq] at h
    rcases hfe : findEmpty g with _ | ⟨r, c⟩
    · rw [hfe] at h
      have h' : ((true, g) : Bool × Grid) = (false, g') := h
      simp at h'
    · rw [hfe] at h
      have h' : tryNums (solveSeq or f) r c g (or g) = (false, g') := h
      exact tryNums_false ih r c (or g) g g' (findEmpty_zero hfe) h'

theorem solveResult_step {g g' : Grid} {r c : Fin 9} {n : Nat}
    (hg : g r c = 0) (hv : isValidPlacement g r c n = true)
    (hn1 : 1 ≤ n) (hn9 : n ≤ 9)
    (hres : SolveResult (setCell g r c n) g') : SolveResult g g' := by
  obtain ⟨hext, hfe, hnd, hrange⟩ := hres
  refine ⟨extends_trans hext (extends_setCell n hg), hfe, ?_, ?_⟩
  · intro hndg
    exact hnd (noDup_setCell ((isValidPlacement_iff g r c n).1 hv) hndg)
  · intro i j
    rcases hrange i j with heq | hr
    · by_cases hij : i = r ∧ j = c
      · right
        obtain ⟨rfl, rfl⟩ := hij
        rw [heq, setCell_self]
        exact ⟨hn1, hn9⟩
      · left
        rw [heq, setCell_ne g r c n hij]
    · right
      exact hr

theorem tryNums_sound {solver : Grid → Bool × Grid}
    (hsr : ∀ g g', solver g = (false, g') → g' = g)
    (hpost : ∀ g g', solver g = (true, g') → SolveResult g g')
    (r c : Fin 9) :
    ∀ (nums : List Nat), (∀ n ∈ nums, 1 ≤ n ∧ n ≤ 9) →
      ∀ (g g' : Grid), g r c = 0 →
        tryNums solver r c g nums = (true, g') → SolveResult g g' := by
  intro nums
  induction nums with
  | nil =>
    intro _ g g' _ h
    simp [tryNums] at h
  | cons n rest ih =>
    intro hrange g g' hg h
    rw [tryNums] at h
    by_cases hv : isValidPlacement g r c n
    · rw [if_pos hv] at h
      rcases hsol : solver (setCell g r c n) with ⟨b2, g2⟩
      rw [hsol] at h
      cases b2
      · have h' : tryNums solver r c (setCell g2 r c 0) rest = (true, g') := h
        have hg2 : g2 = setCell g r c n := hsr _ _ hsol
        rw [hg2, setCell_cancel g r c n hg] at h'
        exact ih (fun m hm => hrange m (List.mem_cons_of_mem n hm)) g g' hg h'
      · have h' : ((true, g2) : Bool × Grid) = (true, g') := h
        have hg' : g2 = g' := by simpa using h'
        subst hg'
        have hn := hrange n (List.mem_cons_self n rest)
        exact solveResult_step hg hv hn.1 hn.2 (hpost _ _ hsol)
    · rw [if_neg hv] at h
      exact ih (fun m hm => hrange m (List.mem_cons_of_mem n hm)) g g' hg h

theorem solveSeq_sound (or : Grid → List Nat)
    (hor : ∀ (gg : Grid) (n : Nat), n ∈ or gg → 1 ≤ n ∧ n ≤ 9) :
    ∀ (f : Nat) (g g' : Grid), solveSeq or f g = (true, g') → SolveResult g g' := by
  intro f
  induction f with
  | zero =>
    intro g g' h
    simp [solveSeq] at h
  | succ f ih =>
    intro g g' h
    rw [solveSeq] at h
    rcases hfe : findEmpty g with _ | ⟨r, c⟩
    · rw [hfe] at h
      have h' : ((true, g) : Bool × Grid) = (true, g') := h
      have hg' : g = g' := by simpa using h'
      subst hg'
      exact ⟨extends_refl g, hfe, fun hnd => hnd, fun i j => Or.inl rfl⟩
    · rw [hfe] at h
      have h' : tryNums (solveSeq or f) r c g (or g) = (true, g') := h
      exact tryNums_sound (solveSeq_false or f) ih r c (or g) (fun n hn => hor g n hn)
        g g' (findEmpty_zero hfe) h'

theorem isValid_of_solution {g h : Grid} {r c : Fin 9} (hs : IsSolutionOf h g)
    (hg : g r c = 0) : isValidPlacement g r c (h r c) = true := by
  obtain ⟨hdig, hnd, hext⟩ := hs
  rw [isValidPlacement_iff]
  intro p hsu hval
  have hp1 := (hdig r c).1
  have hpz : g p.1 p.2 ≠ 0 := by
    rw [hval]
    omega
  have hph : h p.1 p.2 = h r c := by
    rw [hext p.1 p.2 hpz, hval]
  have hpne : p ≠ (r, c) := by
    rintro rfl
    exact hpz hg
  exact hnd p (r, c) hpne hsu (by rw [hph]; omega) hph

theorem solution_setCell {g h : Grid} {r c : Fin 9} (hs : IsSolutionOf h g)
    (hg : g r c = 0) : IsSolutionOf h (setCell g r c (h r c)) := by
  obtain ⟨hdig, hnd, hext⟩ := hs
  refine ⟨hdig, hnd, ?_⟩
  intro i j hij
  by_cases hijc : i = r ∧ j = c
  · obtain ⟨rfl, rfl⟩ := hijc
    rw [setCell_self]
  · rw [setCell_ne g r c _ hijc] at hij ⊢
    exact hext i j hij

theorem tryNums_complete {solver : Grid → Bool × Grid}
    (hsr : ∀ g g', solver g = (false, g') → g' = g) (r c : Fin 9) :
    ∀ (nums : List Nat) (g : Grid) (n : Nat), g r c = 0 → n ∈ nums →
      isValidPlacement g r c n = true → (solver (setCell g r c n)).1 = true →
      (tryNums solver r c g nums).1 = true := by
  intro nums
  induction nums with
  | nil =>
    intro g n _ hn
    simp at hn
  | cons m rest ih =>
    intro g n hg hn hv hsolve
    rw [tryNums]
    by_cases hvm : isValidPlacement g r c m
    · rw [if_pos hvm]
      rcases hsol : solver (setCell g r c m) with ⟨b2, g2⟩
      cases b2
      · show (tryNums solver r c (setCell g2 r c 0) rest).1 = true
        have hg2 : g2 = setCell g r c m := hsr _ _ hsol
        rw [hg2, setCell_cancel g r c m hg]
        rcases List.mem_cons.1 hn with rfl | hn'
        · rw [hsol] at hsolve
          simp at hsolve
        · exact ih g n hg hn' hv hsolve
      · show ((true, g2) : Bool × Grid).1 = true
        rfl
    · rw [if_neg hvm]
      rcases List.mem_cons.1 hn with rfl | hn'
      · exact absurd hv hvm
      · exact ih g n hg hn' hv hsolve

theorem solveSeq_complete (or : Grid → List Nat)
    (hor : ∀ (gg : Grid) (n : Nat), 1 ≤ n → n ≤ 9 → n ∈ or gg) :
    ∀ (f : Nat) (g : Grid), emptyCount g < f → (∃ h, IsSolutionOf h g) →
      (solveSeq or f g).1 = true := by
  intro f
  induction f with
  | zero =>
    intro g hf _
    exact absurd hf (Nat.not_lt_zero _)
  | succ f ih =>
    rintro g hf ⟨h, hs⟩
    rw [solveSeq]
    rcases hfe : findEmpty g with _ | ⟨r, c⟩
    · rfl
    · show (tryNums (solveSeq or f) r c g (or g)).1 = true
      have hg : g r c = 0 := findEmpty_zero hfe
      have hdig := hs.1 r c
      have hv : isValidPlacement g r c (h r c) = true := isValid_of_solution hs hg
      have hlt : emptyCount (setCell g r c (h r c)) < f := by
        have h1 : emptyCount (setCell g r c (h r c)) < emptyCount g :=
          emptyCount_setCell_lt hg (by omega)
        omega
      have hsolve : (solveSeq or f (setCell g r c (h r c))).1 = true :=
        ih (setCell g r c (h r c)) hlt ⟨h, solution_setCell hs hg⟩
      exact tryNums_complete (solveSeq_false or f) r c (or g) g (h r c) hg
        (hor g (h r c) hdig.1 hdig.2) hv hsolve

theorem digits_eq : digits = [1, 2, 3, 4, 5, 6, 7, 8, 9] := rfl

theorem mem_digits {n : Nat} : n ∈ digits ↔ 1 ≤ n ∧ n ≤ 9 := by
  rw [digits_eq]
  simp only [List.mem_cons, List.not_mem_nil, or_false]
  omega

theorem isComplete_iff (g : Grid) : isComplete g = true ↔ ∀ i j : Fin 9, g i j ≠ 0 := by
  unfold isComplete
  simp [List.any_eq_false, List.mem_finRange]

theorem mem_rowVals {g : Grid} {r : Fin 9} {x : Nat} :
    x ∈ rowVals g r ↔ ∃ j, g r j = x := by
  unfold rowVals
  simp

theorem card_boxCells : ∀ r c : Fin 9, (boxCells r c).toFinset.card = 9 := by
  decide

theorem card_rowVals {g : Grid} (hc : ∀ i j : Fin 9, g i j ≠ 0)
    (hnd : NoDupUnits g) (r : Fin 9) : (rowVals g r).card = 9 := by
  unfold rowVals
  have hinj : Function.Injective (fun j => g r j) := by
    intro a b hab
    by_contra hne
    exact hnd (r, a) (r, b) (fun hp => hne (congrArg Prod.snd hp)) (Or.inl rfl)
      (hc r a) hab
  rw [Finset.card_image_of_injective _ hinj, Finset.card_univ, Fintype.card_fin]

theorem card_colVals {g : Grid} (hc : ∀ i j : Fin 9, g i j ≠ 0)
    (hnd : NoDupUnits g) (c : Fin 9) : (colVals g c).card = 9 := by
  unfold colVals
  have hinj : Function.Injective (fun i => g i c) := by
    intro a b hab
    by_contra hne
    exact hnd (a, c) (b, c) (fun hp => hne (congrArg Prod.fst hp))
      (Or.inr (Or.inl rfl)) (hc a c) hab
  rw [Finset.card_image_of_injective _ hinj, Finset.card_univ, Fintype.card_fin]

theorem card_boxVals {g : Grid} (hc : ∀ i j : Fin 9, g i j ≠ 0)
    (hnd : NoDupUnits g) (r c : Fin 9) : (boxVals g r c).card = 9 := by
  unfold boxVals
  have hinj : Set.InjOn (fun p : Fin 9 × Fin 9 => g p.1 p.2)
      ((boxCells r c).toFinset : Finset (Fin 9 × Fin 9)) := by
    intro p hp q hq hpq
    by_contra hne
    have hp' := (mem_boxCells r c p).1 (List.mem_toFinset.1 (Finset.mem_coe.1 hp))
    have hq' := (mem_boxCells r c q).1 (List.mem_toFinset.1 (Finset.mem_coe.1 hq))
    exact hnd p q hne
      (Or.inr (Or.inr ⟨hp'.1.trans hq'.1.symm, hp'.2.trans hq'.2.symm⟩))
      (hc p.1 p.2) hpq
  rw [Finset.card_image_of_injOn hinj, card_boxCells]

theorem isValidComplete_of {g : Grid} (hc : ∀ i j : Fin 9, g i j ≠ 0)
    (hnd : NoDupUnits g) : isValidComplete g = true := by
  unfold isValidComplete
  rw [(isComplete_iff g).2 hc]
  simp only [Bool.true_and, Bool.and_eq_true, List.all_eq_true, List.mem_finRange]
  refine ⟨⟨?_, ?_⟩, ?_⟩
  · intro r _
    have h0 : (0 : Nat) ∉ rowVals g r := by
      rw [mem_rowVals]
      rintro ⟨j, hj⟩
      exact hc r j hj
    simp [card_rowVals hc hnd r, h0]
  · intro c _
    simp [card_colVals hc hnd c]
  · intro bi _ bj _
    simp [card_boxVals hc hnd]

theorem solveGrid_sound {g g' : Grid} (h : solveGrid g = (true, g')) :
    SolveResult g g' :=
  solveSeq_sound (fun _ => digits) (fun _ n hn => mem_digits.1 hn) 82 g g' h

theorem solveGrid_complete {g : Grid} (hs : ∃ h, IsSolutionOf h g) :
    (solveGrid g).1 = true :=
  solveSeq_complete (fun _ => digits) (fun _ n h1 h9 => mem_digits.2 ⟨h1, h9⟩) 82 g
    (by have := emptyCount_le g; omega) hs

theorem wSolution_is_solution : IsSolutionOf wSolution emptyGrid := by
  decide

/-! ### Lemmas about the generator -/

theorem removeCells_count : ∀ (ps : List (Fin 9 × Fin 9)) (k : Nat) (g g' : Grid),
    removeCells g k ps = some g' → emptyCount g' = emptyCount g + k := by
  intro ps
  induction ps with
  | nil =>
    intro k g g' h
    cases k with
    | zero =>
      simp only [removeCells, Option.some.injEq] at h
      rw [h]
      omega
    | succ k => simp [removeCells] at h
  | cons p ps ih =>
    intro k g g' h
    cases k with
    | zero =>
      simp only [removeCells, Option.some.injEq] at h
      rw [h]
      omega
    | succ k =>
      rw [removeCells] at h
      by_cases hp : g p.1 p.2 ≠ 0
      · rw [if_pos hp] at h
        have hk := ih k _ g' h
        rw [hk, emptyCount_clear hp]
        omega
      · rw [if_neg hp] at h
        exact ih (k + 1) g g' h

theorem removeCells_some : ∀ (ps : List (Fin 9 × Fin 9)) (k : Nat) (g : Grid),
    ps.Nodup → k ≤ ps.length → (∀ p ∈ ps, g p.1 p.2 ≠ 0) →
    ∃ g', removeCells g k ps = some g' := by
  intro ps
  induction ps with
  | nil =>
    intro k g _ hk _
    rw [Nat.le_zero.1 hk]
    exact ⟨g, rfl⟩
  | cons p ps ih =>
    intro k g hnd hk hall
    cases k with
    | zero => exact ⟨g, rfl⟩
    | succ k =>
      rw [removeCells, if_pos (hall p (List.mem_cons_self p ps))]
      apply ih k (setCell g p.1 p.2 0) (List.nodup_cons.1 hnd).2 (by simpa using hk)
      intro q hq
      have hqp : q ≠ p := by
        rintro rfl
        exact (List.nodup_cons.1 hnd).1 hq
      rw [setCell_ne g p.1 p.2 0
        (by rintro ⟨h1, h2⟩; exact hqp (Prod.ext_iff.2 ⟨h1, h2⟩))]
      exact hall q (List.mem_cons_of_mem p hq)

theorem fill_complete (or : Grid → List Nat) (hor : ∀ gg, (or gg).Perm digits) :
    ∀ p : Fin 9 × Fin 9, (solveSeq or 82 emptyGrid).2 p.1 p.2 ≠ 0 := by
  have h1 : (solveSeq or 82 emptyGrid).1 = true :=
    solveSeq_complete or (fun gg n hn1 hn9 => ((hor gg).mem_iff).2 (mem_digits.2 ⟨hn1, hn9⟩))
      82 emptyGrid (by decide) ⟨wSolution, wSolution_is_solution⟩
  intro p
  rcases hsg : solveSeq or 82 emptyGrid with ⟨b, g2⟩
  rw [hsg] at h1
  cases b
  · simp at h1
  · have hres := solveSeq_sound or (fun gg n hn => mem_digits.1 ((hor gg).mem_iff.1 hn))
      82 emptyGrid g2 hsg
    exact findEmpty_eq_none.1 hres.2.1 p.1 p.2

/-! ### Lemmas about the candidate aggregation and the deduction layer -/

theorem mem_getAllPossibilities {g : Grid} {p : Fin 9 × Fin 9} {s : Finset Nat} :
    (p, s) ∈ getAllPossibilities g ↔
      g p.1 p.2 = 0 ∧ getPossibilities g p.1 p.2 ≠ ∅ ∧ s = getPossibilities g p.1 p.2 := by
  unfold getAllPossibilities
  simp only [List.mem_flatMap]
  constructor
  · rintro ⟨r, -, c, -, hmem⟩
    by_cases h0 : g r c = 0
    · rw [if_pos h0] at hmem
      by_cases hemp : getPossibilities g r c = ∅
      · rw [if_pos hemp] at hmem
        simp at hmem
      · rw [if_neg hemp] at hmem
        simp only [List.mem_singleton, Prod.mk.injEq] at hmem
        obtain ⟨rfl, rfl⟩ := hmem
        exact ⟨h0, hemp, rfl⟩
    · rw [if_neg h0] at hmem
      simp at hmem
  · rintro ⟨h0, hne, rfl⟩
    refine ⟨p.1, List.mem_finRange _, p.2, List.mem_finRange _, ?_⟩
    rw [if_pos h0, if_neg hne]
    simp

theorem pickSingle_singleton {n : Nat} (h1 : 1 ≤ n) (h9 : n ≤ 9) :
    pickSingle {n} = n := by
  interval_cases n <;> decide

theorem mem_findNakedSingles {g : Grid} {r c : Fin 9} {n : Nat} :
    (r, c, n) ∈ findNakedSingles g ↔
      g r c = 0 ∧ getPossibilities g r c = {n} := by
  unfold findNakedSingles
  simp only [List.mem_flatMap]
  constructor
  · rintro ⟨e, he, hmem⟩
    obtain ⟨h0, hne, hs⟩ := (@mem_getAllPossibilities g e.1 e.2).1 he
    by_cases hcard : e.2.card = 1
    · rw [if_pos hcard] at hmem
      simp only [List.mem_singleton, Prod.mk.injEq] at hmem
      obtain ⟨rfl, rfl, rfl⟩ := hmem
      obtain ⟨a, ha⟩ := Finset.card_eq_one.1 hcard
      have hmema : a ∈ getPossibilities g e.1.1 e.1.2 := by
        rw [← hs, ha]
        exact Finset.mem_singleton_self a
      have hrange := mem_getPossibilities.1 hmema
      rw [ha, pickSingle_singleton hrange.2.1 hrange.2.2.1]
      rw [← hs, ha]
      exact ⟨h0, rfl⟩
    · rw [if_neg hcard] at hmem
      simp at hmem
  · rintro ⟨h0, hset⟩
    have hnmem : n ∈ getPossibilities g r c := by
      rw [hset]
      exact Finset.mem_singleton_self n
    have hrange := mem_getPossibilities.1 hnmem
    refine ⟨((r, c), getPossibilities g r c),
      mem_getAllPossibilities.2 ⟨h0, by rw [hset]; simp, rfl⟩, ?_⟩
    rw [if_pos (by rw [hset]; exact Finset.card_singleton n)]
    rw [hset, pickSingle_singleton hrange.2.1 hrange.2.2.1]
    simp

theorem findNakedSingles_eq_nil {g : Grid} :
    findNakedSingles g = [] ↔
      ¬∃ (r c : Fin 9), g r c = 0 ∧ (getPossibilities g r c).card = 1 := by
  constructor
  · rintro h ⟨r, c, h0, hcard⟩
    obtain ⟨a, ha⟩ := Finset.card_eq_one.1 hcard
    have hmem : (r, c, a) ∈ findNakedSingles g := mem_findNakedSingles.2 ⟨h0, ha⟩
    rw [h] at hmem
    simp at hmem
  · intro h
    rcases hl : findNakedSingles g with _ | ⟨⟨r, c, n⟩, rest⟩
    · rfl
    · exfalso
      have hmem : (r, c, n) ∈ findNakedSingles g := by
        rw [hl]
        exact List.mem_cons_self _ _
      obtain ⟨h0, hset⟩ := mem_findNakedSingles.1 hmem
      exact h ⟨r, c, h0, by rw [hset]; exact Finset.card_singleton n⟩

theorem nodup_all_eq {α : Type} {l : List α} {a : α} (hnd : l.Nodup) (ha : a ∈ l)
    (hall : ∀ b ∈ l, b = a) : l = [a] := by
  cases l with
  | nil => simp at ha
  | cons x xs =>
    have hx : x = a := hall x (List.mem_cons_self x xs)
    subst hx
    have hxs : xs = [] := by
      cases xs with
      | nil => rfl
      | cons y ys =>
        have hy : y = x := hall y (List.mem_cons_of_mem x (List.mem_cons_self y ys))
        exact absurd (hy ▸ List.mem_cons_self y ys) (List.nodup_cons.1 hnd).1
    rw [hxs]

theorem filter_eq_singleton {α : Type} {l : List α} {p : α → Bool} {a : α}
    (hnd : l.Nodup) :
    l.filter p = [a] ↔ (a ∈ l ∧ p a = true ∧ ∀ b ∈ l, p b = true → b = a) := by
  constructor
  · intro h
    have ha : a ∈ l.filter p := by
      rw [h]
      exact List.mem_cons_self a []
    rw [List.mem_filter] at ha
    refine ⟨ha.1, ha.2, fun b hb hpb => ?_⟩
    have hbf : b ∈ l.filter p := List.mem_filter.2 ⟨hb, hpb⟩
    rw [h] at hbf
    simpa using hbf
  · rintro ⟨ha, hpa, hall⟩
    apply nodup_all_eq (List.Nodup.filter p hnd) (List.mem_filter.2 ⟨ha, hpa⟩)
    intro b hb
    rw [List.mem_filter] at hb
    exact hall b hb.1 hb.2

theorem hiddenRowPositions_eq_singleton {g : Grid} {row : Fin 9} {num : Nat} {c : Fin 9} :
    hiddenRowPositions g row num = [c] ↔
      (g row c = 0 ∧ num ∈ getPossibilities g row c ∧
        ∀ c', g row c' = 0 → num ∈ getPossibilities g row c' → c' = c) := by
  unfold hiddenRowPositions
  rw [filter_eq_singleton (List.nodup_finRange 9)]
  simp only [List.mem_finRange, true_and, true_implies, and_imp, Bool.and_eq_true,
    beq_iff_eq, decide_eq_true_eq]
  exact and_assoc

theorem hiddenColPositions_eq_singleton {g : Grid} {col : Fin 9} {num : Nat} {r : Fin 9} :
    hiddenColPositions g col num = [r] ↔
      (g r col = 0 ∧ num ∈ getPossibilities g r col ∧
        ∀ r', g r' col = 0 → num ∈ getPossibilities g r' col → r' = r) := by
  unfold hiddenColPositions
  rw [filter_eq_singleton (List.nodup_finRange 9)]
  simp only [List.mem_finRange, true_and, true_implies, and_imp, Bool.and_eq_true,
    beq_iff_eq, decide_eq_true_eq]
  exact and_assoc

theorem mem_findHiddenSinglesInRow {g : Grid} {row r c : Fin 9} {n : Nat} :
    (r, c, n) ∈ findHiddenSinglesInRow g row ↔ r = row ∧ HiddenRowAt g row c n := by
  unfold findHiddenSinglesInRow
  simp only [List.mem_flatMap, List.mem_range'_1]
  constructor
  · rintro ⟨num, hnum, hmem⟩
    by_cases hrow : (List.finRange 9).any (fun j => g row j == num)
    · rw [if_pos hrow] at hmem
      simp at hmem
    · rw [if_neg hrow] at hmem
      rcases hpos : hiddenRowPositions g row num with _ | ⟨c1, _ | ⟨c2, cs⟩⟩
      all_goals rw [hpos] at hmem
      · simp at hmem
      · have hmem' : (r, c, n) ∈ [(row, c1, num)] := hmem
        simp only [List.mem_singleton, Prod.mk.injEq] at hmem'
        obtain ⟨rfl, rfl, rfl⟩ := hmem'
        obtain ⟨h0, hpmem, hall⟩ := hiddenRowPositions_eq_singleton.1 hpos
        have hnr : ∀ j, g r j ≠ n := by
          intro j
          have hf := List.any_eq_false.1 (Bool.eq_false_iff.2 hrow) j (List.mem_finRange j)
          simpa using hf
        exact ⟨rfl, by omega, by omega, hnr, h0, hpmem, hall⟩
      · simp at hmem
  · rintro ⟨rfl, h1, h9, hnr, h0, hpmem, hall⟩
    refine ⟨n, ⟨h1, by omega⟩, ?_⟩
    rw [if_neg (by
      intro hany
      obtain ⟨j, -, hj⟩ := List.any_eq_true.1 hany
      exact hnr j (by simpa using hj))]
    rw [hiddenRowPositions_eq_singleton.2 ⟨h0, hpmem, hall⟩]
    simp

theorem mem_findHiddenSinglesInColumn {g : Grid} {col r c : Fin 9} {n : Nat} :
    (r, c, n) ∈ findHiddenSinglesInColumn g col ↔ c = col ∧ HiddenColAt g r col n := by
  unfold findHiddenSinglesInColumn
  simp only [List.mem_flatMap, List.mem_range'_1]
  constructor
  · rintro ⟨num, hnum, hmem⟩
    by_cases hcol : (List.finRange 9).any (fun i => g i col == num)
    · rw [if_pos hcol] at hmem
      simp at hmem
    · rw [if_neg hcol] at hmem
      rcases hpos : hiddenColPositions g col num with _ | ⟨r1, _ | ⟨r2, rs⟩⟩
      all_goals rw [hpos] at hmem
      · simp at hmem
      · have hmem' : (r, c, n) ∈ [(r1, col, num)] := hmem
        simp only [List.mem_singleton, Prod.mk.injEq] at hmem'
        obtain ⟨rfl, rfl, rfl⟩ := hmem'
        obtain ⟨h0, hpmem, hall⟩ := hiddenColPositions_eq_singleton.1 hpos
        have hnc : ∀ i, g i c ≠ n := by
          intro i
          have hf := List.any_eq_false.1 (Bool.eq_false_iff.2 hcol) i (List.mem_finRange i)
          simpa using hf
        exact ⟨rfl, by omega, by omega, hnc, h0, hpmem, hall⟩
      · simp at hmem
  · rintro ⟨rfl, h1, h9, hnc, h0, hpmem, hall⟩
    refine ⟨n, ⟨h1, by omega⟩, ?_⟩
    rw [if_neg (by
      intro hany
      obtain ⟨i, -, hi⟩ := List.any_eq_true.1 hany
      exact hnc i (by simpa using hi))]
    rw [hiddenColPositions_eq_singleton.2 ⟨h0, hpmem, hall⟩]
    simp

theorem findHiddenSinglesInRow_eq_nil {g : Grid} {row : Fin 9} :
    findHiddenSinglesInRow g row = [] ↔ ¬∃ (c : Fin 9) (n : Nat), HiddenRowAt g row c n := by
  constructor
  · rintro h ⟨c, n, hh⟩
    have hmem : (row, c, n) ∈ findHiddenSinglesInRow g row :=
      mem_findHiddenSinglesInRow.2 ⟨rfl, hh⟩
    rw [h] at hmem
    simp at hmem
  · intro h
    rcases hl : findHiddenSinglesInRow g row with _ | ⟨⟨r, c, n⟩, rest⟩
    · rfl
    · exfalso
      have hmem : (r, c, n) ∈ findHiddenSinglesInRow g row := by
        rw [hl]
        exact List.mem_cons_self _ _
      obtain ⟨-, hh⟩ := mem_findHiddenSinglesInRow.1 hmem
      exact h ⟨c, n, hh⟩

theorem findHiddenSinglesInColumn_eq_nil {g : Grid} {col : Fin 9} :
    findHiddenSinglesInColumn g col = [] ↔
      ¬∃ (r : Fin 9) (n : Nat), HiddenColAt g r col n := by
  constructor
  · rintro h ⟨r, n, hh⟩
    have hmem : (r, col, n) ∈ findHiddenSinglesInColumn g col :=
      mem_findHiddenSinglesInColumn.2 ⟨rfl, hh⟩
    rw [h] at hmem
    simp at hmem
  · intro h
    rcases hl : findHiddenSinglesInColumn g col with _ | ⟨⟨r, c, n⟩, rest⟩
    · rfl
    · exfalso
      have hmem : (r, c, n) ∈ findHiddenSinglesInColumn g col := by
        rw [hl]
        exact List.mem_cons_self _ _
      obtain ⟨-, hh⟩ := mem_findHiddenSinglesInColumn.1 hmem
      exact h ⟨r, n, hh⟩

theorem findSome?_first {β : Type} {f' : Fin 9 → Option β} {t : β} :
    ∀ (l : List (Fin 9)), l.Pairwise (· < ·) → l.findSome? f' = some t →
      ∃ i ∈ l, f' i = some t ∧ ∀ j ∈ l, f' j ≠ none → i ≤ j := by
  intro l
  induction l with
  | nil =>
    intro _ h
    simp at h
  | cons a l ih =>
    intro hpw h
    rw [List.findSome?_cons] at h
    rcases ha : f' a with _ | b
    · rw [ha] at h
      have h' : l.findSome? f' = some t := h
      obtain ⟨i, hil, hit, hmin⟩ := ih (List.pairwise_cons.1 hpw).2 h'
      refine ⟨i, List.mem_cons_of_mem a hil, hit, ?_⟩
      intro j hj hjn
      rcases List.mem_cons.1 hj with rfl | hj'
      · exact absurd ha hjn
      · exact hmin j hj' hjn
    · rw [ha] at h
      have h' : (some b : Option β) = some t := h
      obtain rfl : b = t := Option.some.inj h'
      refine ⟨a, List.mem_cons_self a l, ha, ?_⟩
      intro j hj _
      rcases List.mem_cons.1 hj with rfl | hj'
      · exact le_refl j
      · exact le_of_lt ((List.pairwise_cons.1 hpw).1 j hj')

theorem firstHit_eq_none {f : Fin 9 → List (Fin 9 × Fin 9 × Nat)} :
    firstHit f = none ↔ ∀ i, f i = [] := by
  unfold firstHit
  rw [List.findSome?_eq_none_iff]
  constructor
  · intro h i
    have hi := h i (List.mem_finRange i)
    rwa [List.head?_eq_none_iff] at hi
  · intro h i _
    rw [h i]
    rfl

theorem firstHit_eq_some {f : Fin 9 → List (Fin 9 × Fin 9 × Nat)} {t : Fin 9 × Fin 9 × Nat}
    (h : firstHit f = some t) :
    ∃ i, (f i).head? = some t ∧ ∀ j, f j ≠ [] → i ≤ j := by
  obtain ⟨i, -, hit, hmin⟩ :=
    findSome?_first (List.finRange 9) (List.pairwise_lt_finRange 9) h
  refine ⟨i, hit, fun j hj => hmin j (List.mem_finRange j) ?_⟩
  rw [Ne, List.head?_eq_none_iff]
  exact hj

theorem head?_mem {α : Type} {l : List α} {a : α} (h : l.head? = some a) : a ∈ l :=
  List.mem_of_mem_head? (by rw [h]; rfl)

theorem mem_colVals {g : Grid} {c : Fin 9} {x : Nat} :
    x ∈ colVals g c ↔ ∃ i, g i c = x := by
  unfold colVals
  simp

theorem mem_boxVals {g : Grid} {r c : Fin 9} {x : Nat} :
    x ∈ boxVals g r c ↔ ∃ p ∈ boxCells r c, g p.1 p.2 = x := by
  unfold boxVals
  simp [List.mem_toFinset]

/-! ### The claims -/

/-- C1, counterexample to the claim as stated: on the board whose only
entry is a 5 at `(0, 0)`, no cell *other than* `(0, 0)` holds a 5 in the
row, column, or box of `(0, 0)`, yet `place_number(0, 0, 5)` is rejected
(the validity scan also sees the target cell itself), contradicting the
claimed "succeeds iff no other cell holds the value". -/
theorem c1_counterexample :
    (placeNumber g5 0 0 5).1 = false ∧
      ∀ p : Fin 9 × Fin 9, p ≠ (0, 0) → SameUnit p (0, 0) → g5 p.1 p.2 ≠ 5 := by
  decide

/-- C1, amended: for `value` in 1..9, `place_number` succeeds and mutates
exactly the target cell iff `value` is not already present anywhere in the
row, the column, or the 3x3 box — including at the target cell itself;
when rejected it returns failure and leaves the board unchanged; and
`place_number(row, col, 0)` always succeeds and clears the cell. -/
theorem c1_place_spec (g : Grid) (r c : Fin 9) (v : Nat) (h1 : 1 ≤ v) (h9 : v ≤ 9) :
    (¬ValueInUnits g r c v → placeNumber g r c v = (true, setCell g r c v)) ∧
    (ValueInUnits g r c v → placeNumber g r c v = (false, g)) ∧
    placeNumber g r c 0 = (true, setCell g r c 0) := by
  have hv0 : ¬(v = 0) := by omega
  have hiff : isValidPlacement g r c v = true ↔ ¬ValueInUnits g r c v := by
    rw [isValidPlacement_iff]
    unfold ValueInUnits
    push_neg
    exact Iff.rfl
  refine ⟨?_, ?_, ?_⟩
  · intro hnv
    unfold placeNumber
    rw [if_neg hv0, if_pos (hiff.2 hnv)]
  · intro hvin
    unfold placeNumber
    rw [if_neg hv0, if_neg (fun ht => (hiff.1 ht) hvin)]
  · unfold placeNumber
    rw [if_pos rfl]

/-- C1 witness: placing 5 at `(0, 0)` of the empty board succeeds and
writes exactly that cell. -/
theorem c1_place_spec_witness :
    (1 ≤ 5 ∧ 5 ≤ 9) ∧ placeNumber emptyGrid 0 0 5 = (true, setCell emptyGrid 0 0 5) :=
  ⟨by decide, (c1_place_spec emptyGrid 0 0 5 (by decide) (by decide)).1 (by decide)⟩

/-- C2, counterexample to the claim as stated: the all-ones grid has no
empty cell, so the backtracking solver reports success immediately, yet
the grid has no duplicate-free completion (it is its own only completion
and row 0 repeats 1).  The "for every 9x9 grid" bidirectional claim is
therefore false without a consistency hypothesis on the input. -/
theorem c2_counterexample :
    (solveGrid allOnes).1 = true ∧ ¬∃ h : Grid, IsSolutionOf h allOnes := by
  constructor
  · decide
  · rintro ⟨h, hdig, hnd, hext⟩
    have h00 : h 0 0 = 1 := hext 0 0 (by decide)
    have h01 : h 0 1 = 1 := hext 0 1 (by decide)
    exact hnd (0, 0) (0, 1) (by decide) (Or.inl rfl) (by rw [h00]; decide)
      (by rw [h00, h01])

/-- C2, amended: for every grid whose cells lie in [0,9] and whose
non-zero cells contain no duplicate in any row, column or box, the
backtracking solver succeeds iff the grid has a completion with no
repeated digit in any unit; on success the resulting grid is complete,
satisfies `is_valid_complete`, and agrees with the input on every
non-zero cell; and the `solution` stored at board construction is always
an extension of the given clues. -/
theorem c2_solver_correct (g : Grid) (hw : ∀ i j : Fin 9, g i j ≤ 9)
    (hnd : NoDupUnits g) :
    ((solveGrid g).1 = true ↔ ∃ h : Grid, IsSolutionOf h g) ∧
    ((solveGrid g).1 = true →
      isComplete (solveGrid g).2 = true ∧ isValidComplete (solveGrid g).2 = true ∧
        Extends (solveGrid g).2 g) ∧
    ∀ s : Grid, (mkBoard g).solution = some s → Extends s g := by
  have hsound : (solveGrid g).1 = true → SolveResult g (solveGrid g).2 := by
    intro h1
    rcases hsg : solveGrid g with ⟨b, g'⟩
    rw [hsg] at h1
    cases b
    · simp at h1
    · exact solveGrid_sound hsg
  refine ⟨⟨?_, ?_⟩, ?_, ?_⟩
  · intro h1
    obtain ⟨hext, hfe, hndr, hrange⟩ := hsound h1
    refine ⟨(solveGrid g).2, ?_, hndr hnd, hext⟩
    intro i j
    have hne := findEmpty_eq_none.1 hfe i j
    rcases hrange i j with heq | hr
    · rw [heq] at hne ⊢
      have := hw i j
      omega
    · exact hr
  · intro hs
    exact solveGrid_complete hs
  · intro h1
    obtain ⟨hext, hfe, hndr, -⟩ := hsound h1
    have hcc : ∀ i j : Fin 9, (solveGrid g).2 i j ≠ 0 := findEmpty_eq_none.1 hfe
    exact ⟨(isComplete_iff _).2 hcc, isValidComplete_of hcc (hndr hnd), hext⟩
  · intro s hsol
    have hkey : (solveGrid g).1 = true ∧ (solveGrid g).2 = s := by
      unfold mkBoard at hsol
      rcases hsg : solveGrid g with ⟨b, g'⟩
      rw [hsg] at hsol
      cases b
      · simp at hsol
      · have hs' : (some g' : Option Grid) = some s := hsol
        exact ⟨rfl, Option.some.inj hs'⟩
    obtain ⟨h1, hseq⟩ := hkey
    rw [← hseq]
    exact (hsound h1).1

/-- C2 witness: solving the all-empty grid succeeds (a concrete valid
completion exists). -/
theorem c2_solver_correct_witness : (solveGrid emptyGrid).1 = true :=
  (c2_solver_correct emptyGrid (by decide) (by decide)).1.mpr
    ⟨wSolution, wSolution_is_solution⟩

/-- C3, counterexample to the claim as stated: constructing a board from
the 9x9 grid holding the out-of-range value 15 at `(0, 0)` reports no
failure — a `Board` is produced and both its `cells` and its `initial`
snapshot carry the malformed value. -/
theorem c3_counterexample :
    (mkBoard g15).cells 0 0 = 15 ∧ (mkBoard g15).initial 0 0 = 15 ∧
      ¬(∀ i j : Fin 9, g15 i j ≤ 9) := by
  refine ⟨rfl, rfl, ?_⟩
  intro h
  have h00 := h 0 0
  revert h00
  decide

/-- C3, amended: construction from a 9x9 grid never fails and performs no
validation of cell values — every grid (in-range or not) yields a `Board`
whose `cells` and `initial` equal the supplied grid, with `solution`
filled from one solver run. -/
theorem c3_construct_total (g : Grid) :
    (mkBoard g).cells = g ∧ (mkBoard g).initial = g ∧
      (mkBoard g).solution =
        (if (solveGrid g).1 = true then some (solveGrid g).2 else none) := by
  refine ⟨rfl, rfl, ?_⟩
  rcases hsg : solveGrid g with ⟨b, g'⟩
  cases b <;> simp [mkBoard, hsg]

/-- C4: on a board whose 27 units contain no duplicate non-zero digit, any
successful `place_number` leaves all 27 units duplicate-free. -/
theorem c4_place_preserves_noDup (g : Grid) (r c : Fin 9) (v : Nat)
    (hnd : NoDupUnits g) (hs : (placeNumber g r c v).1 = true) :
    NoDupUnits (placeNumber g r c v).2 := by
  unfold placeNumber at hs ⊢
  by_cases h0 : v = 0
  · rw [if_pos h0]
    exact noDup_clear r c hnd
  · rw [if_neg h0] at hs ⊢
    by_cases hv : isValidPlacement g r c v
    · rw [if_pos hv]
      exact noDup_setCell ((isValidPlacement_iff g r c v).1 hv) hnd
    · rw [if_neg hv] at hs
      simp at hs

/-- C4 witness: placing 5 at `(0, 0)` of the (duplicate-free) empty board
succeeds and preserves duplicate-freeness. -/
theorem c4_witness :
    NoDupUnits emptyGrid ∧ (placeNumber emptyGrid 0 0 5).1 = true ∧
      NoDupUnits (placeNumber emptyGrid 0 0 5).2 :=
  ⟨by decide, by decide, c4_place_preserves_noDup emptyGrid 0 0 5 (by decide) (by decide)⟩

/-- C5: `get_possibilities` of a filled cell is the empty set, and of an
empty cell is `{1..9}` minus every value present in its row, minus every
value present in its column, minus every value present in its 3x3 box
(box origin `(row/3*3, col/3*3)`); the embedding is a pure function of
the grid, so the query mutates nothing. -/
theorem c5_candidates_spec (g : Grid) (r c : Fin 9) :
    getPossibilities g r c =
      if g r c = 0 then
        Finset.Icc 1 9 \ (rowVals g r ∪ colVals g c ∪ boxVals g r c)
      else ∅ := by
  by_cases h : g r c = 0
  · rw [if_pos h]
    ext x
    rw [mem_getPossibilities]
    simp only [Finset.mem_sdiff, Finset.mem_Icc, Finset.mem_union, mem_rowVals,
      mem_colVals, mem_boxVals]
    constructor
    · rintro ⟨-, h1, h9, hrow, hcol, hbox⟩
      refine ⟨⟨h1, h9⟩, ?_⟩
      rintro ((⟨j, hj⟩ | ⟨i, hi⟩) | ⟨p, hp, hv⟩)
      · exact hrow j hj
      · exact hcol i hi
      · exact hbox p hp hv
    · rintro ⟨⟨h1, h9⟩, hn⟩
      refine ⟨h, h1, h9, ?_, ?_, ?_⟩
      · intro j hj
        exact hn (Or.inl (Or.inl ⟨j, hj⟩))
      · intro i hi
        exact hn (Or.inl (Or.inr ⟨i, hi⟩))
      · intro p hp hv
        exact hn (Or.inr ⟨p, hp, hv⟩)
  · rw [if_neg h]
    exact getPossibilities_of_filled h

/-- C6: whenever `generate_puzzle(difficulty)` returns (any shuffle
outcomes, modelled as permutation-of-1..9 oracles, and any removal-pick
stream), the returned board's `initial` grid has exactly
`difficulty_map[difficulty]` empty cells, and that map sends Easy, Medium,
Hard, Expert to 30, 40, 50, 60. -/
theorem c6_generate_empty_count (or : Grid → List Nat) (picks : List (Fin 9 × Fin 9))
    (d : String) (b : Board)
    (hor : ∀ gg : Grid, (or gg).Perm digits)
    (hd : d = "Easy" ∨ d = "Medium" ∨ d = "Hard" ∨ d = "Expert")
    (hret : generatePuzzle or picks d = some b) :
    emptyCount b.initial = difficultyMap d ∧
      difficultyMap "Easy" = 30 ∧ difficultyMap "Medium" = 40 ∧
      difficultyMap "Hard" = 50 ∧ difficultyMap "Expert" = 60 := by
  refine ⟨?_, by decide, by decide, by decide, by decide⟩
  simp only [generatePuzzle] at hret
  rcases hrem : removeCells (solveSeq or 82 emptyGrid).2 (difficultyMap d) picks
    with _ | g0
  · rw [hrem] at hret
    simp at hret
  · rw [hrem] at hret
    have hb : (some (mkBoard g0) : Option Board) = some b := hret
    obtain rfl : mkBoard g0 = b := Option.some.inj hb
    have hcount := removeCells_count picks (difficultyMap d) _ g0 hrem
    have hfill : emptyCount (solveSeq or 82 emptyGrid).2 = 0 := by
      unfold emptyCount
      rw [Finset.card_eq_zero, Finset.filter_eq_empty_iff]
      intro p _
      exact fill_complete or hor p
    show emptyCount g0 = difficultyMap d
    rw [hcount, hfill]
    omega

/-- C6 witness: with the ascending digit oracle and the first 30 cells as
removal picks, `generate_puzzle("Easy")` returns a board whose initial
grid has exactly 30 empty cells. -/
theorem c6_generate_empty_count_witness :
    ∃ b : Board, generatePuzzle (fun _ => digits) wPicks "Easy" = some b ∧
      emptyCount b.initial = 30 := by
  have hor : ∀ gg : Grid, ((fun _ => digits) gg : List Nat).Perm digits :=
    fun _ => List.Perm.refl digits
  have hfillnz : ∀ p ∈ wPicks, (solveSeq (fun _ => digits) 82 emptyGrid).2 p.1 p.2 ≠ 0 :=
    fun p _ => fill_complete (fun _ => digits) hor p
  obtain ⟨g0, hg0⟩ := removeCells_some wPicks 30
    (solveSeq (fun _ => digits) 82 emptyGrid).2 (by decide) (by decide) hfillnz
  have hret : generatePuzzle (fun _ => digits) wPicks "Easy" = some (mkBoard g0) := by
    simp only [generatePuzzle]
    have hdm : difficultyMap "Easy" = 30 := by decide
    rw [hdm, hg0]
  refine ⟨mkBoard g0, hret, ?_⟩
  have hmain := (c6_generate_empty_count (fun _ => digits) wPicks "Easy" (mkBoard g0)
    hor (Or.inl rfl) hret).1
  rw [hmain]
  decide

/-- C7: whenever the backtracking search (deterministic solver and the
generator's randomised fill alike, i.e. any digit oracle and any fuel)
returns failure, the threaded grid is restored exactly to its pre-call
state: every placement made during the search has been undone. -/
theorem c7_backtrack_restores (or : Grid → List Nat) (f : Nat) (g : Grid)
    (h : (solveSeq or f g).1 = false) : (solveSeq or f g).2 = g := by
  rcases hsg : solveSeq or f g with ⟨b, g'⟩
  rw [hsg] at h
  cases b
  · exact solveSeq_false or f g g' hsg
  · simp at h

/-- C7 witness: on the board whose first empty cell `(0, 0)` admits no
digit, the search fails and leaves the grid unchanged. -/
theorem c7_backtrack_restores_witness :
    (solveSeq (fun _ => digits) 82 gStuck).1 = false ∧
      (solveSeq (fun _ => digits) 82 gStuck).2 = gStuck :=
  ⟨by decide, c7_backtrack_restores (fun _ => digits) 82 gStuck (by decide)⟩

/-- C8: `get_advanced_hint` returns a naked-single deduction whenever
some empty cell has exactly one candidate; otherwise, if a row hidden
single exists it returns one from the first (scanning rows 0..8) row that
has one; otherwise, if a column hidden single exists it returns one from
the first such column; and it returns no deduction exactly when no naked
single and no row or column hidden single exists. -/
theorem c8_advanced_hint_spec (g : Grid) :
    ((∃ r c : Fin 9, g r c = 0 ∧ (getPossibilities g r c).card = 1) →
      ∃ r c : Fin 9, ∃ n : Nat, getAdvancedHint g = some (Hint.naked r c n) ∧
        g r c = 0 ∧ getPossibilities g r c = {n}) ∧
    (¬(∃ r c : Fin 9, g r c = 0 ∧ (getPossibilities g r c).card = 1) →
      (∃ r c : Fin 9, ∃ n : Nat, HiddenRowAt g r c n) →
      ∃ r c : Fin 9, ∃ n : Nat, getAdvancedHint g = some (Hint.hiddenRow r c n) ∧
        HiddenRowAt g r c n ∧
        ∀ (r' c' : Fin 9) (n' : Nat), HiddenRowAt g r' c' n' → r ≤ r') ∧
    (¬(∃ r c : Fin 9, g r c = 0 ∧ (getPossibilities g r c).card = 1) →
      ¬(∃ r c : Fin 9, ∃ n : Nat, HiddenRowAt g r c n) →
      (∃ r c : Fin 9, ∃ n : Nat, HiddenColAt g r c n) →
      ∃ r c : Fin 9, ∃ n : Nat, getAdvancedHint g = some (Hint.hiddenCol r c n) ∧
        HiddenColAt g r c n ∧
        ∀ (r' c' : Fin 9) (n' : Nat), HiddenColAt g r' c' n' → c ≤ c') ∧
    (getAdvancedHint g = none ↔
      ¬(∃ r c : Fin 9, g r c = 0 ∧ (getPossibilities g r c).card = 1) ∧
      ¬(∃ r c : Fin 9, ∃ n : Nat, HiddenRowAt g r c n) ∧
      ¬(∃ r c : Fin 9, ∃ n : Nat, HiddenColAt g r c n)) := by
  by_cases hnk : ∃ r c : Fin 9, g r c = 0 ∧ (getPossibilities g r c).card = 1
  · obtain ⟨r0, c0, h00, hcard⟩ := hnk
    have hne : findNakedSingles g ≠ [] := by
      intro hnil
      exact (findNakedSingles_eq_nil.1 hnil) ⟨r0, c0, h00, hcard⟩
    rcases hl : findNakedSingles g with _ | ⟨⟨r1, c1, n1⟩, rest⟩
    · exact absurd hl hne
    · have hmem : (r1, c1, n1) ∈ findNakedSingles g := by
        rw [hl]
        exact List.mem_cons_self _ _
      obtain ⟨h10, hset⟩ := mem_findNakedSingles.1 hmem
      have hhint : getAdvancedHint g = some (Hint.naked r1 c1 n1) := by
        unfold getAdvancedHint
        rw [hl]
        rfl
      refine ⟨fun _ => ⟨r1, c1, n1, hhint, h10, hset⟩,
        fun hn _ => absurd ⟨r0, c0, h00, hcard⟩ hn,
        fun hn _ _ => absurd ⟨r0, c0, h00, hcard⟩ hn, ?_⟩
      constructor
      · intro h
        rw [hhint] at h
        simp at h
      · rintro ⟨hn, -⟩
        exact absurd ⟨r0, c0, h00, hcard⟩ hn
  · have hnil : findNakedSingles g = [] := findNakedSingles_eq_nil.2 hnk
    have hhd0 : (findNakedSingles g).head? = none := by
      rw [hnil]
      rfl
    by_cases hrow : ∃ r c : Fin 9, ∃ n : Nat, HiddenRowAt g r c n
    · obtain ⟨ra, ca, na, hha⟩ := hrow
      have hfr : firstHit (findHiddenSinglesInRow g) ≠ none := by
        intro hn
        exact (findHiddenSinglesInRow_eq_nil.1 (firstHit_eq_none.1 hn ra)) ⟨ca, na, hha⟩
      rcases hfh : firstHit (findHiddenSinglesInRow g) with _ | ⟨r1, c1, n1⟩
      · exact absurd hfh hfr
      · obtain ⟨i, hhead, hmin⟩ := firstHit_eq_some hfh
        obtain ⟨hr1, hh1⟩ := mem_findHiddenSinglesInRow.1 (head?_mem hhead)
        have hhint : getAdvancedHint g = some (Hint.hiddenRow r1 c1 n1) := by
          unfold getAdvancedHint
          rw [hhd0, hfh]
        have hminr : ∀ (r' c' : Fin 9) (n' : Nat), HiddenRowAt g r' c' n' → r1 ≤ r' := by
          intro r' c' n' hh'
          have hne' : findHiddenSinglesInRow g r' ≠ [] := by
            intro hnil'
            exact (findHiddenSinglesInRow_eq_nil.1 hnil') ⟨c', n', hh'⟩
          rw [hr1]
          exact hmin r' hne'
        refine ⟨fun hn => absurd hn hnk,
          fun _ _ => ⟨r1, c1, n1, hhint, hr1 ▸ hh1, hminr⟩,
          fun _ hnr _ => absurd ⟨ra, ca, na, hha⟩ hnr, ?_⟩
        constructor
        · intro h
          rw [hhint] at h
          simp at h
        · rintro ⟨-, hnr, -⟩
          exact absurd ⟨ra, ca, na, hha⟩ hnr
    · have hfr0 : firstHit (findHiddenSinglesInRow g) = none := by
        rw [firstHit_eq_none]
        intro i
        rw [findHiddenSinglesInRow_eq_nil]
        rintro ⟨c', n', hh'⟩
        exact hrow ⟨i, c', n', hh'⟩
      by_cases hcol : ∃ r c : Fin 9, ∃ n : Nat, HiddenColAt g r c n
      · obtain ⟨ra, ca, na, hha⟩ := hcol
        have hfc : firstHit (findHiddenSinglesInColumn g) ≠ none := by
          intro hn
          exact (findHiddenSinglesInColumn_eq_nil.1 (firstHit_eq_none.1 hn ca))
            ⟨ra, na, hha⟩
        rcases hfh : firstHit (findHiddenSinglesInColumn g) with _ | ⟨r1, c1, n1⟩
        · exact absurd hfh hfc
        · obtain ⟨i, hhead, hmin⟩ := firstHit_eq_some hfh
          obtain ⟨hc1, hh1⟩ := mem_findHiddenSinglesInColumn.1 (head?_mem hhead)
          have hhint : getAdvancedHint g = some (Hint.hiddenCol r1 c1 n1) := by
            unfold getAdvancedHint
            rw [hhd0, hfr0, hfh]
          have hminc : ∀ (r' c' : Fin 9) (n' : Nat), HiddenColAt g r' c' n' → c1 ≤ c' := by
            intro r' c' n' hh'
            have hne' : findHiddenSinglesInColumn g c' ≠ [] := by
              intro hnil'
              exact (findHiddenSinglesInColumn_eq_nil.1 hnil') ⟨r', n', hh'⟩
            rw [hc1]
            exact hmin c' hne'
          refine ⟨fun hn => absurd hn hnk,
            fun _ hr => absurd hr hrow,
            fun _ _ _ => ⟨r1, c1, n1, hhint, hc1 ▸ hh1, hminc⟩, ?_⟩
          constructor
          · intro h
            rw [hhint] at h
            simp at h
          · rintro ⟨-, -, hnc⟩
            exact absurd ⟨ra, ca, na, hha⟩ hnc
      · have hfc0 : firstHit (findHiddenSinglesInColumn g) = none := by
          rw [firstHit_eq_none]
          intro i
          rw [findHiddenSinglesInColumn_eq_nil]
          rintro ⟨r', n', hh'⟩
          exact hcol ⟨r', i, n', hh'⟩
        have hhint : getAdvancedHint g = none := by
          unfold getAdvancedHint
          rw [hhd0, hfr0, hfc0]
        exact ⟨fun hn => absurd hn hnk,
          fun _ hr => absurd hr hrow,
          fun _ _ hc => absurd hc hcol,
          ⟨fun _ => ⟨hnk, hrow, hcol⟩, fun _ => hhint⟩⟩

/-- C8 witness: on the board whose row 0 is `0,2,3,...,9`, cell `(0, 0)`
is a naked single, and the hint is a naked-single deduction. -/
theorem c8_advanced_hint_spec_witness :
    ∃ r c : Fin 9, ∃ n : Nat, getAdvancedHint gNaked = some (Hint.naked r c n) ∧
      gNaked r c = 0 ∧ getPossibilities gNaked r c = {n} :=
  (c8_advanced_hint_spec gNaked).1 (by decide)

/-- C9: the entries of `get_all_possibilities` are exactly the empty
cells whose candidate set is non-empty, each mapped to precisely
`get_possibilities` of that cell; empty cells with an empty candidate set
are excluded. -/
theorem c9_all_candidates_spec (g : Grid) (p : Fin 9 × Fin 9) (s : Finset Nat) :
    (p, s) ∈ getAllPossibilities g ↔
      (g p.1 p.2 = 0 ∧ getPossibilities g p.1 p.2 ≠ ∅ ∧
        s = getPossibilities g p.1 p.2) :=
  mem_getAllPossibilities

/-- C10: `place_number` neither requires the target cell to be empty nor
protects given clues: clearing always succeeds whatever `initial` holds
at that cell, and a digit 1..9 overwrites a different non-zero digit
whenever it appears nowhere else in the cell's row, column, or box. -/
theorem c10_place_ignores_initial (b : Board) (r c : Fin 9) :
    ((placeB b r c 0).1 = true ∧ (placeB b r c 0).2.cells = setCell b.cells r c 0) ∧
    ∀ v : Nat, 1 ≤ v → v ≤ 9 → b.cells r c ≠ 0 → b.cells r c ≠ v →
      (∀ p : Fin 9 × Fin 9, p ≠ (r, c) → SameUnit p (r, c) → b.cells p.1 p.2 ≠ v) →
      (placeB b r c v).1 = true ∧ (placeB b r c v).2.cells = setCell b.cells r c v := by
  constructor
  · exact ⟨rfl, rfl⟩
  · intro v h1 h9 hcell hcv hother
    have hv : isValidPlacement b.cells r c v = true := by
      rw [isValidPlacement_iff]
      intro p hsu
      by_cases hp : p = (r, c)
      · subst hp
        exact hcv
      · exact hother p hp hsu
    have hplace : placeNumber b.cells r c v = (true, setCell b.cells r c v) := by
      unfold placeNumber
      rw [if_neg (by omega : ¬v = 0), if_pos hv]
    unfold placeB
    rw [hplace]
    exact ⟨rfl, rfl⟩

/-- C10 witness: on a board constructed with a 5 at `(0, 0)` (so the clue
is non-zero in `initial`), clearing `(0, 0)` succeeds, and overwriting it
with 6 succeeds since 6 appears nowhere else in its units. -/
theorem c10_place_ignores_initial_witness :
    (mkBoard g5).initial 0 0 = 5 ∧ (placeB (mkBoard g5) 0 0 0).1 = true ∧
      (placeB (mkBoard g5) 0 0 6).1 = true :=
  ⟨by decide, (c10_place_ignores_initial (mkBoard g5) 0 0).1.1,
    ((c10_place_ignores_initial (mkBoard g5) 0 0).2 6 (by decide) (by decide)
      (by decide) (by decide) (by decide)).1⟩

end Sudoku
